import Mathlib

/-!
Verification of the hanoi-tower / bank-marketing repository.

The file shallowly embeds the algorithmic parts of the repository:

* `hanoi_solver` — the recursive move generator of `hanoi-tower/solve.py`.
  Python's `int` argument `n` is modelled as `ℤ`; tower indices are an
  arbitrary type `α` (Python is untyped; the game passes `0, 2, 1`).
* the interactive legal-move rule and drag-and-drop handler of
  `hanoi-tower/graphics.py` (`handle_game_events`, `check_win`,
  `start_animation`).  A Python tower list stores the bottom disk at index
  0 and the top at the end (`pop()` / `append()` act on the end); here a
  tower is a `List ℕ` of disk sizes whose *head* is the top, so `pop` is
  taking the tail and `append` is `cons`.
* the grid-search recommender of
  `Jupyter Notebook — Bank Marketing Project/Prediction_app.py`
  (`recommend_for_non_subscriber`).  Scores (`model.predict_proba` output,
  a Python float) are modelled as rationals `ℚ`; the opaque model is a
  parameter.  A Python exception is either an `AttributeError` (the only
  class the code catches) or some other exception.
* the bulk-upload validator of `Prediction_app_improved3.py`
  (`process_bulk_upload`).  A dataframe is a list of column names plus a
  list of abstract rows; the opaque per-row scorer is a parameter.
-/

namespace HanoiTower

/-- `hanoi-tower/solve.py`, `hanoi_solver`:
```
moves = []
if n > 0:
    moves.extend(hanoi_solver(n - 1, source, auxiliary, destination))
    moves.append((source, destination))
    moves.extend(hanoi_solver(n - 1, auxiliary, destination, source))
    return moves
return []
``` -/
def hanoi_solver {α : Type} (n : ℤ) (source destination auxiliary : α) :
    List (α × α) :=
  if _h : 0 < n then
    hanoi_solver (n - 1) source auxiliary destination ++
      [(source, destination)] ++
      hanoi_solver (n - 1) auxiliary destination source
  else []
termination_by n.toNat
decreasing_by all_goals omega


/-- The textbook recursion, written from the spec's words
(§4.2: base case `N = 0 → empty`, recursive case
`solve(N−1, source→auxiliary) ++ [(source, destination)] ++
 solve(N−1, auxiliary→destination)`), to be compared with the source's
`hanoi_solver`. -/
def textbook_solve {α : Type} : ℕ → α → α → α → List (α × α)
  | 0, _, _, _ => []
  | n + 1, s, d, a =>
      textbook_solve n s a d ++ [(s, d)] ++ textbook_solve n a d s


/-- The three towers of the game (`self.towers` in
`hanoi-tower/graphics.py` is a list of three lists of disks).  A tower is
the list of its disks' sizes, top of the tower first (the Python list has
the top last and pops/appends there). -/
structure Towers where
  t0 : List ℕ
  t1 : List ℕ
  t2 : List ℕ
deriving DecidableEq, Repr

def Towers.get (tw : Towers) : Fin 3 → List ℕ
  | 0 => tw.t0
  | 1 => tw.t1
  | 2 => tw.t2

def Towers.set (tw : Towers) : Fin 3 → List ℕ → Towers
  | 0, l => { tw with t0 := l }
  | 1, l => { tw with t1 := l }
  | 2, l => { tw with t2 := l }


/-- The legal-move rule of `handle_game_events`
(`graphics.py`): a disk may be placed on a tower iff the tower is empty or
its top disk is strictly larger
(`not self.towers[target_idx] or
  self.dragging_disk['size'] < self.towers[target_idx][-1]['size']`). -/
def canPlace (disk : ℕ) : List ℕ → Bool
  | [] => true
  | top :: _ => disk < top

/-- One move of the replay: pop the top disk of `src` (fails when `src` is
empty, as the animation loop of `start_animation` checks
`if not self.towers[src]`) and place it on `dst` when the legal-move rule
allows it. -/
def applyMove (tw : Towers) (src dst : Fin 3) : Option Towers :=
  match tw.get src with
  | [] => none
  | disk :: rest =>
      let tw' := tw.set src rest
      if canPlace disk (tw'.get dst) then
        some (tw'.set dst (disk :: tw'.get dst))
      else none

/-- Replaying a move list against the legal-move rule; `none` as soon as a
move is illegal. -/
def replay (tw : Towers) : List (Fin 3 × Fin 3) → Option Towers
  | [] => some tw
  | m :: ms =>
      match applyMove tw m.1 m.2 with
      | none => none
      | some tw' => replay tw' ms

/-- The initial state of a game with `n` disks, all on tower `s`
(disk sizes `0, 1, …, n-1`, smallest on top). -/
def initTowers (n : ℕ) (s : Fin 3) : Towers :=
  (Towers.mk [] [] []).set s (List.range n)

/-- The stacking invariant: every tower is strictly decreasing in disk
size from bottom to top, i.e. strictly increasing from the head (top) of
the list. -/
def sortedTowers (tw : Towers) : Prop :=
  ∀ i : Fin 3, (tw.get i).Sorted (· < ·)


/-- The drop step of `handle_game_events` (`graphics.py`, MOUSEBUTTONUP):
the dragged disk was already popped from `src` on MOUSEBUTTONDOWN; on
release, `target` is `get_tower_at(mouse_pos)`.  If no tower is under the
mouse, or the legal-move rule rejects the drop, the disk is appended back
onto `src`; otherwise it is appended to `target`, and the move counter
and move history (1-based indices) are updated only when `src ≠ target`.
Returns (towers, move counter, move history). -/
def dropDisk (tw : Towers) (src : Fin 3) (disk : ℕ) (target : Option (Fin 3))
    (moves : ℕ) (history : List (ℕ × ℕ)) : Towers × ℕ × List (ℕ × ℕ) :=
  match target with
  | none => (tw.set src (disk :: tw.get src), moves, history)
  | some t =>
      if canPlace disk (tw.get t) then
        (tw.set t (disk :: tw.get t),
          if src ≠ t then moves + 1 else moves,
          if src ≠ t then history ++ [(src.val + 1, t.val + 1)] else history)
      else (tw.set src (disk :: tw.get src), moves, history)

/-- A persisted score entry
(`{'name': …, 'disks': …, 'time': …, 'moves': …}` in `check_win`);
the float time is modelled as a rational. -/
structure ScoreEntry where
  name : String
  disks : ℕ
  time : ℚ
  moves : ℕ
deriving DecidableEq, Repr

/-- A persisted move-history entry (`check_win` appends
`{'game_id': …, 'player_name': …, 'disks': …, 'moves': …, 'time': …}`). -/
structure HistoryEntry where
  game_id : String
  player_name : String
  disks : ℕ
  moves : List (ℕ × ℕ)
  time : ℚ
deriving DecidableEq, Repr

/-- The fields of `HanoiGUI` that `check_win` and `start_animation` read
or write (UI-only fields — sounds, particles, buttons — are omitted). -/
structure GameState where
  towers : Towers
  n : ℕ
  game_state : String
  scores : List ScoreEntry
  full_move_history : List HistoryEntry
  is_solver_used : Bool
  move_history : List (ℕ × ℕ)
  player_name : String
  game_id : String
  moves : ℕ
  time_taken : ℚ
deriving DecidableEq

/-- `graphics.py`, `check_win`: the game always has three towers, so the
Python guard `self.towers and len(self.towers) >= 3` is always true; win
iff tower 1 or tower 2 holds exactly `n` disks; an early return when the
state is already 'win'; the score entry is appended only when the solver
was not used; the history entry is appended unconditionally. -/
def check_win (g : GameState) : GameState :=
  if g.towers.t1.length = g.n ∨ g.towers.t2.length = g.n then
    if g.game_state = "win" then g
    else
      { g with
        game_state := "win"
        scores :=
          if g.is_solver_used then g.scores
          else g.scores ++
            [ScoreEntry.mk g.player_name g.n g.time_taken g.moves]
        full_move_history := g.full_move_history ++
          [HistoryEntry.mk g.game_id g.player_name g.n g.move_history
            g.time_taken] }
  else g

/-- The state updates at the top of `graphics.py`'s `start_animation`:
`is_solver_used = True`, `move_history = []`, `moves = 0` (the animation
itself is UI). -/
def start_animation_flags (g : GameState) : GameState :=
  { g with is_solver_used := true, move_history := [], moves := 0 }

end HanoiTower

namespace BankMarketing

/-- A Python exception class, as far as
`recommend_for_non_subscriber` (`Prediction_app.py`) distinguishes them:
`except AttributeError` catches exactly the `AttributeError` class; every
other exception propagates. -/
inductive PyExc where
  | attributeError
  | otherError
deriving DecidableEq, Repr

/-- One point of the grid (`Prediction_app.py`,
`recommend_for_non_subscriber`): the five tunable fields written into
`input_dict` before scoring. -/
structure Candidate where
  contact : String
  month : String
  duration : ℕ
  campaign : ℕ
  poutcome : String
deriving DecidableEq, Repr

def contact_options : List String := ["cellular", "telephone", "unknown"]

def month_options : List String :=
  ["jan", "feb", "mar", "apr", "may", "jun",
   "jul", "aug", "sep", "oct", "nov", "dec"]

def duration_options : List ℕ := [100, 300, 500, 1000, 1500]

def campaign_options : List ℕ := [1, 2, 3, 5, 7]

def poutcome_options : List String := ["success", "failure", "other", "unknown"]

/-- The candidates in the order the five nested `for` loops of
`recommend_for_non_subscriber` visit them (`contact` outermost,
`poutcome` innermost). -/
def candidates : List Candidate :=
  contact_options.flatMap fun contact =>
    month_options.flatMap fun month =>
      duration_options.flatMap fun duration =>
        campaign_options.flatMap fun campaign =>
          poutcome_options.map fun poutcome =>
            Candidate.mk contact month duration campaign poutcome

/-- The body of the innermost loop: score the candidate
(`model.predict_proba(...)` — opaque, may raise) and replace the
accumulator on a strictly greater confidence
(`if confidence > best_confidence`).  `except AttributeError: continue`
keeps the accumulator; any other exception escapes the whole search. -/
def gridStep (score : Candidate → Except PyExc ℚ)
    (acc : Option Candidate × ℚ) (c : Candidate) :
    Except PyExc (Option Candidate × ℚ) :=
  match score c with
  | .error .attributeError => .ok acc
  | .error e => .error e
  | .ok confidence =>
      .ok (if acc.2 < confidence then (some c, confidence) else acc)

/-- `Prediction_app.py`, `recommend_for_non_subscriber`: scan the grid in
loop order starting from `best_confidence = 0`, `best_params = {}`
(modelled as `none`); return the best parameters and confidence. -/
def recommend_for_non_subscriber
    (score : Candidate → Except PyExc ℚ) :
    Except PyExc (Option Candidate × ℚ) :=
  candidates.foldlM (gridStep score) ((none : Option Candidate), (0 : ℚ))

/-- The pure accumulator update of `gridStep`, for a scorer that never
raises. -/
def step (f : Candidate → ℚ) (acc : Option Candidate × ℚ)
    (c : Candidate) : Option Candidate × ℚ :=
  if acc.2 < f c then (some c, f c) else acc

/-- The maximum of a scorer over the grid, floored at the search's
initial accumulator value 0. -/
def bestScore (f : Candidate → ℚ) : ℚ := (candidates.map f).foldl max 0

/-- The first candidate in loop order. -/
def cFirst : Candidate := Candidate.mk "cellular" "jan" 100 1 "success"

/-- `Prediction_app_improved3.py`: the required input columns for a bulk
upload. -/
def RAW_FEATURE_COLUMNS : List String :=
  ["age", "job", "marital", "education", "default", "balance", "housing",
   "loan", "contact", "day", "month", "duration", "campaign", "pdays",
   "previous", "poutcome"]

def SUCCESS_THRESHOLD : ℚ := 1 / 2

/-- An uploaded table: its column names and its rows.  Row contents are
opaque (`ρ`); the model pipeline is an opaque per-row scorer. -/
structure Table (ρ : Type) where
  cols : List String
  rows : List ρ

/-- `Prediction_app_improved3.py`, `process_bulk_upload`: reject the
whole upload, reporting the list of missing required columns, when any
required column is absent; otherwise annotate every row with its
subscription probability and the
`np.where(p >= SUCCESS_THRESHOLD, 'Prioritize', 'De-prioritize')`
label. -/
def process_bulk_upload {ρ : Type} (score : ρ → ℚ) (df : Table ρ) :
    Except (List String) (List (ρ × ℚ × String)) :=
  let missing_cols := RAW_FEATURE_COLUMNS.filter fun c => decide (c ∉ df.cols)
  if missing_cols ≠ [] then .error missing_cols
  else .ok (df.rows.map fun r =>
    (r, score r,
      if SUCCESS_THRESHOLD ≤ score r then "Prioritize" else "De-prioritize"))


end BankMarketing

namespace HanoiTower

lemma hanoi_solver_nonpos {α : Type} {n : ℤ} (hn : n ≤ 0)
    (s d a : α) : hanoi_solver n s d a = [] := by
  rw [hanoi_solver, dif_neg (by omega)]

lemma hanoi_solver_natCast_succ {α : Type} (n : ℕ) (s d a : α) :
    hanoi_solver ((n + 1 : ℕ) : ℤ) s d a =
      hanoi_solver (n : ℤ) s a d ++ [(s, d)] ++ hanoi_solver (n : ℤ) a d s := by
  rw [hanoi_solver, dif_pos (by positivity)]
  norm_num

lemma hanoi_solver_natCast_zero {α : Type} (s d a : α) :
    hanoi_solver ((0 : ℕ) : ℤ) s d a = [] :=
  hanoi_solver_nonpos (by norm_num) s d a

lemma hanoi_solver_eq_textbook {α : Type} (n : ℕ) (s d a : α) :
    hanoi_solver (n : ℤ) s d a = textbook_solve n s d a := by
  induction n generalizing s d a with
  | zero => rw [hanoi_solver_natCast_zero, textbook_solve]
  | succ m ih =>
      rw [hanoi_solver_natCast_succ, textbook_solve, ih, ih]

lemma hanoi_solver_length (n : ℕ) {α : Type} (s d a : α) :
    (hanoi_solver (n : ℤ) s d a).length = 2 ^ n - 1 := by
  induction n generalizing s d a with
  | zero => rw [hanoi_solver_natCast_zero]; rfl
  | succ m ih =>
      rw [hanoi_solver_natCast_succ]
      simp only [List.length_append, List.length_singleton, ih]
      have h : 0 < 2 ^ m := Nat.pos_pow_of_pos m (by norm_num)
      have h2 : 2 ^ (m + 1) = 2 ^ m * 2 := pow_succ 2 m
      omega

lemma Towers.get_set_self (tw : Towers) (i : Fin 3) (l : List ℕ) :
    (tw.set i l).get i = l := by
  fin_cases i <;> rfl

lemma Towers.get_set_ne (tw : Towers) {i j : Fin 3} (h : j ≠ i)
    (l : List ℕ) : (tw.set i l).get j = tw.get j := by
  fin_cases i <;> fin_cases j <;> first | rfl | exact absurd rfl h

lemma Towers.set_get_self (tw : Towers) (i : Fin 3) :
    tw.set i (tw.get i) = tw := by
  fin_cases i <;> rfl

lemma Towers.set_set_self (tw : Towers) (i : Fin 3) (l l' : List ℕ) :
    (tw.set i l).set i l' = tw.set i l' := by
  fin_cases i <;> rfl

lemma replay_append (tw : Towers) (l1 l2 : List (Fin 3 × Fin 3)) :
    replay tw (l1 ++ l2) =
      (replay tw l1).bind fun tw' => replay tw' l2 := by
  induction l1 generalizing tw with
  | nil => rfl
  | cons m ms ih =>
      rw [List.cons_append, replay, replay]
      cases applyMove tw m.1 m.2 with
      | none => rfl
      | some tw' => exact ih tw'

lemma applyMove_sorted {tw tw' : Towers} {s d : Fin 3}
    (hs : sortedTowers tw) (h : applyMove tw s d = some tw') :
    sortedTowers tw' := by
  unfold applyMove at h
  rcases hsrc : tw.get s with _ | ⟨disk, rest⟩ <;> rw [hsrc] at h
  · exact absurd h (by simp)
  · simp only at h
    split at h
    · rename_i hcan
      rcases Option.some.injEq .. ▸ h with rfl
      have hfull : (disk :: rest).Sorted (· < ·) := hsrc ▸ hs s
      have hrest : rest.Sorted (· < ·) := (List.sorted_cons.mp hfull).2
      intro i
      by_cases hid : i = d
      · subst hid
        rw [Towers.get_set_self]
        by_cases hisrc : i = s
        · rw [hisrc, Towers.get_set_self] at hcan ⊢
          exact hfull
        · rw [Towers.get_set_ne _ hisrc] at hcan ⊢
          rcases hdst : tw.get i with _ | ⟨top, rest'⟩ <;> rw [hdst] at hcan
          · simp
          · have hlt : disk < top := by simpa [canPlace] using hcan
            have hsd : (top :: rest').Sorted (· < ·) := hdst ▸ hs i
            refine List.sorted_cons.mpr ⟨?_, hsd⟩
            intro b hb
            rcases List.mem_cons.mp hb with rfl | hb
            · exact hlt
            · exact lt_trans hlt (List.rel_of_sorted_cons hsd b hb)
      · rw [Towers.get_set_ne _ hid]
        by_cases hisrc : i = s
        · subst hisrc
          rw [Towers.get_set_self]
          exact hrest
        · rw [Towers.get_set_ne _ hisrc]
          exact hs i
    · exact absurd h (by simp)

lemma replay_sorted {tw tw' : Towers} {l : List (Fin 3 × Fin 3)}
    (hs : sortedTowers tw) (h : replay tw l = some tw') :
    sortedTowers tw' := by
  induction l generalizing tw with
  | nil => rw [replay] at h; rcases Option.some.injEq .. ▸ h with rfl; exact hs
  | cons m ms ih =>
      rw [replay] at h
      rcases ha : applyMove tw m.1 m.2 with _ | tw1 <;> rw [ha] at h
      · exact absurd h (by simp)
      · exact ih (applyMove_sorted hs ha) h

lemma replay_take {tw tw'' : Towers} {l : List (Fin 3 × Fin 3)}
    (h : replay tw l = some tw'') (k : ℕ) :
    ∃ tw', replay tw (l.take k) = some tw' := by
  induction l generalizing tw k with
  | nil => exact ⟨tw, by cases k <;> rfl⟩
  | cons m ms ih =>
      cases k with
      | zero => exact ⟨tw, rfl⟩
      | succ k =>
          rw [replay] at h
          rcases ha : applyMove tw m.1 m.2 with _ | tw1 <;> rw [ha] at h
          · exact absurd h (by simp)
          · rcases ih h k with ⟨tw', hw⟩
            exact ⟨tw', by rw [List.take_succ_cons, replay, ha]; exact hw⟩

lemma applyMove_cons {tw : Towers} {src : Fin 3} {disk : ℕ}
    {rest : List ℕ} (h : tw.get src = disk :: rest) (dst : Fin 3) :
    applyMove tw src dst =
      if canPlace disk ((tw.set src rest).get dst) then
        some ((tw.set src rest).set dst (disk :: (tw.set src rest).get dst))
      else none := by
  unfold applyMove
  rw [h]

lemma replay_singleton (tw : Towers) (m : Fin 3 × Fin 3) :
    replay tw [m] = applyMove tw m.1 m.2 := by
  rw [replay]
  cases applyMove tw m.1 m.2 <;> rfl

lemma Towers.ext_get {tw tw' : Towers} (h : ∀ i, tw.get i = tw'.get i) :
    tw = tw' := by
  cases tw
  cases tw'
  have h0 := h 0
  have h1 := h 1
  have h2 := h 2
  simp only [Towers.get] at h0 h1 h2
  simp [h0, h1, h2]

lemma fin3_cover : ∀ s d a i : Fin 3,
    s ≠ d → s ≠ a → d ≠ a → i = s ∨ i = d ∨ i = a := by decide

/-- Replaying `hanoi_solver n s d a` from any state whose tower `s` holds
the disks `0, …, n-1` on top of `rs`, with every disk resting anywhere
else of size at least `n`, succeeds and transfers exactly those `n` disks
onto tower `d`. -/
lemma hanoi_replay (n : ℕ) :
    ∀ s d a : Fin 3, s ≠ d → s ≠ a → d ≠ a →
    ∀ (tw : Towers) (rs rd ra : List ℕ),
      tw.get s = List.range n ++ rs → tw.get d = rd → tw.get a = ra →
      (∀ x, x ∈ rs ∨ x ∈ rd ∨ x ∈ ra → n ≤ x) →
      replay tw (hanoi_solver (n : ℤ) s d a) =
        some ((tw.set s rs).set d (List.range n ++ rd)) := by
  induction n with
  | zero =>
      intro s d a hsd hsa hda tw rs rd ra hs hd ha hb
      rw [hanoi_solver_natCast_zero, replay]
      rw [List.range_zero, List.nil_append] at hs ⊢
      rw [← hs, ← hd, Towers.set_get_self, Towers.set_get_self]
  | succ n ih =>
      intro s d a hsd hsa hda tw rs rd ra hs hd ha hb
      rw [hanoi_solver_natCast_succ, replay_append, replay_append]
      have hs' : tw.get s = List.range n ++ (n :: rs) := by
        rw [hs, List.range_succ, List.append_assoc, List.singleton_append]
      have h1 : replay tw (hanoi_solver (n : ℤ) s a d) =
          some ((tw.set s (n :: rs)).set a (List.range n ++ ra)) := by
        refine ih s a d hsa hsd (Ne.symm hda) tw (n :: rs) ra rd hs' ha hd ?_
        intro x hx
        rcases hx with hx | hx | hx
        · rcases List.mem_cons.mp hx with rfl | hx
          · exact le_refl _
          · exact Nat.le_of_succ_le (hb x (Or.inl hx))
        · exact Nat.le_of_succ_le (hb x (Or.inr (Or.inr hx)))
        · exact Nat.le_of_succ_le (hb x (Or.inr (Or.inl hx)))
      set tw1 : Towers := (tw.set s (n :: rs)).set a (List.range n ++ ra)
        with htw1
      have hget_s1 : tw1.get s = n :: rs := by
        rw [htw1, Towers.get_set_ne _ hsa, Towers.get_set_self]
      have hget_d1 : tw1.get d = rd := by
        rw [htw1, Towers.get_set_ne _ hda,
          Towers.get_set_ne _ (Ne.symm hsd), hd]
      have hget_d1' : (tw1.set s rs).get d = rd := by
        rw [Towers.get_set_ne _ (Ne.symm hsd), hget_d1]
      have hcan : canPlace n ((tw1.set s rs).get d) = true := by
        rw [hget_d1']
        rcases hrd : rd with _ | ⟨t, rd'⟩
        · rfl
        · have ht : n + 1 ≤ t :=
            hb t (Or.inr (Or.inl (hrd ▸ List.mem_cons_self t rd')))
          simp only [canPlace, decide_eq_true_eq]
          omega
      have h2 : applyMove tw1 s d = some ((tw1.set s rs).set d (n :: rd)) := by
        rw [applyMove_cons hget_s1, if_pos hcan, hget_d1']
      have hget_a2 : ((tw1.set s rs).set d (n :: rd)).get a =
          List.range n ++ ra := by
        rw [Towers.get_set_ne _ (Ne.symm hda),
          Towers.get_set_ne _ (Ne.symm hsa), htw1, Towers.get_set_self]
      have hget_d2 : ((tw1.set s rs).set d (n :: rd)).get d = n :: rd :=
        Towers.get_set_self _ _ _
      have hget_s2 : ((tw1.set s rs).set d (n :: rd)).get s = rs := by
        rw [Towers.get_set_ne _ hsd, Towers.get_set_self]
      have h3 : replay ((tw1.set s rs).set d (n :: rd))
            (hanoi_solver (n : ℤ) a d s) =
          some (((((tw1.set s rs).set d (n :: rd)).set a ra).set d
            (List.range n ++ (n :: rd)))) := by
        refine ih a d s (Ne.symm hda) (Ne.symm hsa) (Ne.symm hsd)
          _ ra (n :: rd) rs hget_a2 hget_d2 hget_s2 ?_
        intro x hx
        rcases hx with hx | hx | hx
        · exact Nat.le_of_succ_le (hb x (Or.inr (Or.inr hx)))
        · rcases List.mem_cons.mp hx with rfl | hx
          · exact le_refl _
          · exact Nat.le_of_succ_le (hb x (Or.inr (Or.inl hx)))
        · exact Nat.le_of_succ_le (hb x (Or.inl hx))
      rw [h1, Option.some_bind, replay_singleton, h2, Option.some_bind, h3]
      congr 1
      apply Towers.ext_get
      intro i
      rcases fin3_cover s d a i hsd hsa hda with rfl | rfl | rfl
      · rw [Towers.get_set_ne _ hsd, Towers.get_set_ne _ hsa, hget_s2,
          Towers.get_set_ne _ hsd, Towers.get_set_self]
      · rw [Towers.get_set_self, Towers.get_set_self, List.range_succ,
          List.append_assoc, List.singleton_append]
      · rw [Towers.get_set_ne _ (Ne.symm hda), Towers.get_set_self,
          Towers.get_set_ne _ (Ne.symm hda), Towers.get_set_ne _ (Ne.symm hsa),
          ha]

lemma get_mk_nil : ∀ i : Fin 3, (Towers.mk [] [] []).get i = [] := by
  intro i
  fin_cases i <;> rfl

lemma initTowers_sorted (n : ℕ) (s : Fin 3) :
    sortedTowers (initTowers n s) := by
  intro i
  by_cases hi : i = s
  · rw [hi, initTowers, Towers.get_set_self]
    exact List.sorted_lt_range n
  · rw [initTowers, Towers.get_set_ne _ hi, get_mk_nil]
    exact List.sorted_nil

lemma hanoi_replay_init (n : ℕ) (s d a : Fin 3)
    (hsd : s ≠ d) (hsa : s ≠ a) (hda : d ≠ a) :
    replay (initTowers n s) (hanoi_solver (n : ℤ) s d a) =
      some (initTowers n d) := by
  have hmain := hanoi_replay n s d a hsd hsa hda (initTowers n s)
    [] [] []
    (by rw [initTowers, Towers.get_set_self, List.append_nil])
    (by rw [initTowers, Towers.get_set_ne _ (Ne.symm hsd), get_mk_nil])
    (by rw [initTowers, Towers.get_set_ne _ (Ne.symm hsa), get_mk_nil])
    (by intro x hx; rcases hx with hx | hx | hx <;> simp at hx)
  rw [hmain]
  congr 1
  apply Towers.ext_get
  intro i
  rcases fin3_cover s d a i hsd hsa hda with rfl | rfl | rfl
  · rw [Towers.get_set_ne _ hsd, Towers.get_set_self, initTowers,
      Towers.get_set_ne _ hsd, get_mk_nil]
  · rw [Towers.get_set_self, List.append_nil, initTowers,
      Towers.get_set_self]
  · rw [Towers.get_set_ne _ (Ne.symm hda), Towers.get_set_ne _ (Ne.symm hsa),
      initTowers, Towers.get_set_ne _ (Ne.symm hsa), get_mk_nil, initTowers,
      Towers.get_set_ne _ (Ne.symm hda), get_mk_nil]

end HanoiTower

namespace BankMarketing

lemma foldlM_gridStep_ok (f : Candidate → ℚ) :
    ∀ (l : List Candidate) (acc : Option Candidate × ℚ),
      l.foldlM (gridStep fun c => .ok (f c)) acc =
        .ok (l.foldl (step f) acc) := by
  intro l
  induction l with
  | nil => intro acc; rfl
  | cons c l ih =>
      intro acc
      rw [List.foldlM_cons, List.foldl_cons]
      show (gridStep (fun c => .ok (f c)) acc c).bind _ = _
      rw [gridStep]
      exact ih (step f acc c)

lemma le_foldl_max : ∀ (l : List ℚ) (a : ℚ), a ≤ l.foldl max a := by
  intro l
  induction l with
  | nil => intro a; exact le_refl a
  | cons x l ih =>
      intro a
      rw [List.foldl_cons]
      exact le_trans (le_max_left a x) (ih (max a x))

lemma mem_le_foldl_max :
    ∀ (l : List ℚ) (a x : ℚ), x ∈ l → x ≤ l.foldl max a := by
  intro l
  induction l with
  | nil => intro a x hx; exact absurd hx (List.not_mem_nil x)
  | cons y l ih =>
      intro a x hx
      rw [List.foldl_cons]
      rcases List.mem_cons.mp hx with rfl | hx
      · exact le_trans (le_max_right a x) (le_foldl_max l (max a x))
      · exact ih (max a y) x hx

lemma foldl_max_of_le (l : List ℚ) (a : ℚ) (h : ∀ x ∈ l, x ≤ a) :
    l.foldl max a = a := by
  induction l with
  | nil => rfl
  | cons x l ih =>
      rw [List.foldl_cons, max_eq_left (h x (List.mem_cons_self x l))]
      exact ih fun y hy => h y (List.mem_cons_of_mem x hy)

lemma foldl_max_attained :
    ∀ (l : List ℚ) (b a : ℚ), b ≤ a → a ∈ l → (∀ x ∈ l, x ≤ a) →
      l.foldl max b = a := by
  intro l
  induction l with
  | nil => intro b a _ ha _; exact absurd ha (List.not_mem_nil a)
  | cons x l ih =>
      intro b a hba ha hle
      rw [List.foldl_cons]
      rcases List.mem_cons.mp ha with rfl | ha
      · rw [max_eq_right hba]
        exact foldl_max_of_le l a fun y hy =>
          hle y (List.mem_cons_of_mem a hy)
      · exact ih (max b x) a
          (max_le hba (hle x (List.mem_cons_self x l))) ha
          (fun y hy => hle y (List.mem_cons_of_mem x hy))

lemma foldl_step_no_update (f : Candidate → ℚ) :
    ∀ (l : List Candidate) (acc : Option Candidate × ℚ),
      (∀ c ∈ l, f c ≤ acc.2) → l.foldl (step f) acc = acc := by
  intro l
  induction l with
  | nil => intro acc _; rfl
  | cons c l ih =>
      intro acc h
      rw [List.foldl_cons,
        show step f acc c = acc by
          rw [step, if_neg (not_lt.mpr (h c (List.mem_cons_self c l)))]]
      exact ih acc fun c' hc' => h c' (List.mem_cons_of_mem c hc')

lemma foldl_step_argmax (f : Candidate → ℚ) :
    ∀ (l : List Candidate) (b : Option Candidate) (q M : ℚ),
      M = (l.map f).foldl max q → q < M →
      ∃ c, l.foldl (step f) (b, q) = (some c, M) ∧ c ∈ l ∧ f c = M ∧
        l.find? (fun c' => decide (M ≤ f c')) = some c := by
  intro l
  induction l with
  | nil =>
      intro b q M hM hq
      rw [List.map_nil, List.foldl_nil] at hM
      exact absurd (hM ▸ hq) (lt_irrefl q)
  | cons x l ih =>
      intro b q M hM hq
      rw [List.map_cons, List.foldl_cons] at hM
      rw [List.foldl_cons]
      by_cases hx : q < f x
      · have hstep : step f (b, q) x = (some x, f x) := by
          simp [step, hx]
        rw [hstep, max_eq_right (le_of_lt hx)] at *
        rw [hstep]
        by_cases hfxM : f x < M
        · obtain ⟨c, h1, h2, h3, h4⟩ := ih (some x) (f x) M hM hfxM
          refine ⟨c, h1, List.mem_cons_of_mem x h2, h3, ?_⟩
          rw [List.find?_cons_of_neg _ (by simpa using not_le.mpr hfxM), h4]
        · have hfxM' : f x ≤ M := hM ▸ le_foldl_max (l.map f) (f x)
          have hMx : M = f x := le_antisymm (not_lt.mp hfxM) hfxM'
          have hno : l.foldl (step f) (some x, f x) = (some x, f x) :=
            foldl_step_no_update f l (some x, f x) fun c hc => by
              have hc' := mem_le_foldl_max (l.map f) (f x) (f c)
                (List.mem_map_of_mem f hc)
              rw [← hM, hMx] at hc'
              exact hc'
          exact ⟨x, by rw [hno, hMx], List.mem_cons_self x l, hMx.symm,
            List.find?_cons_of_pos _ (by simpa using le_of_eq hMx)⟩
      · have hstep : step f (b, q) x = (b, q) := by
          simp [step, hx]
        rw [hstep, max_eq_left (not_lt.mp hx)] at *
        rw [hstep]
        obtain ⟨c, h1, h2, h3, h4⟩ := ih b q M hM hq
        refine ⟨c, h1, List.mem_cons_of_mem x h2, h3, ?_⟩
        rw [List.find?_cons_of_neg _
          (by simpa using not_le.mpr (lt_of_le_of_lt (not_lt.mp hx) hq)), h4]

lemma find?_eq_of_mem {α : Type} [DecidableEq α] :
    ∀ (l : List α) (x : α), x ∈ l →
      l.find? (fun c => decide (c = x)) = some x := by
  intro l
  induction l with
  | nil => intro x hx; exact absurd hx (List.not_mem_nil x)
  | cons y l ih =>
      intro x hx
      by_cases hyx : y = x
      · rw [List.find?_cons_of_pos _ (by simpa using hyx), hyx]
      · rcases List.mem_cons.mp hx with rfl | hx
        · exact absurd rfl hyx
        · rw [List.find?_cons_of_neg _ (by simpa using hyx), ih x hx]

lemma foldlM_gridStep_attrError (score : Candidate → Except PyExc ℚ) :
    ∀ (l : List Candidate) (acc : Option Candidate × ℚ),
      (∀ c ∈ l, score c = .error .attributeError) →
      l.foldlM (gridStep score) acc = .ok acc := by
  intro l
  induction l with
  | nil => intro acc _; rfl
  | cons c l ih =>
      intro acc h
      rw [List.foldlM_cons]
      show (gridStep score acc c).bind _ = _
      rw [gridStep, h c (List.mem_cons_self c l)]
      exact ih acc fun c' hc' => h c' (List.mem_cons_of_mem c hc')

lemma foldlM_gridStep_otherError (score : Candidate → Except PyExc ℚ) :
    ∀ (l : List Candidate) (acc : Option Candidate × ℚ), l ≠ [] →
      (∀ c ∈ l, score c = .error .otherError) →
      l.foldlM (gridStep score) acc = .error .otherError := by
  intro l
  induction l with
  | nil => intro acc h _; exact absurd rfl h
  | cons c l _ =>
      intro acc _ h
      rw [List.foldlM_cons]
      show (gridStep score acc c).bind _ = _
      rw [gridStep, h c (List.mem_cons_self c l)]
      rfl

end BankMarketing

/-- C2: replaying the move sequence returned by
`hanoi_solver(N, source, destination, auxiliary)` from the initial state
with all N disks on the source tower never attempts an illegal move
(every prefix replays successfully and keeps every tower strictly
decreasing in disk size from bottom to top), and the final state has all
N disks on the declared destination tower. -/
theorem C2_replay_solution (n : ℕ) (s d a : Fin 3)
    (hsd : s ≠ d) (hsa : s ≠ a) (hda : d ≠ a) :
    (∀ k, ∃ tw', HanoiTower.replay (HanoiTower.initTowers n s)
          ((HanoiTower.hanoi_solver (n : ℤ) s d a).take k) = some tw' ∧
        HanoiTower.sortedTowers tw') ∧
      HanoiTower.replay (HanoiTower.initTowers n s)
          (HanoiTower.hanoi_solver (n : ℤ) s d a) =
        some (HanoiTower.initTowers n d) := by
  have hfull := HanoiTower.hanoi_replay_init n s d a hsd hsa hda
  refine ⟨fun k => ?_, hfull⟩
  obtain ⟨tw', h'⟩ := HanoiTower.replay_take hfull k
  exact ⟨tw', h',
    HanoiTower.replay_sorted (HanoiTower.initTowers_sorted n s) h'⟩

/-- C2 witness: the 7-move solution for 3 disks from tower 0 to tower 2
replays to the state with all three disks on tower 2. -/
theorem C2_replay_solution_witness :
    HanoiTower.replay (HanoiTower.initTowers 3 0)
        (HanoiTower.hanoi_solver ((3 : ℕ) : ℤ) 0 2 1) =
      some (HanoiTower.initTowers 3 2) :=
  (C2_replay_solution 3 0 2 1 (by decide) (by decide) (by decide)).2

/-- C6: a drop on a target tower is legal iff the target is empty or its
top disk is strictly larger than the dragged disk; an illegal drop
restores the pre-pickup towers and leaves the move counter unchanged; a
legal drop pushes the disk on the target and increments the counter only
when source ≠ target; placing a size-3 disk on an empty tower succeeds,
and placing it on a tower topped by a size-2 disk is rejected with both
towers unchanged. -/
theorem C6_drop_rule (tw : HanoiTower.Towers) (src target : Fin 3)
    (disk : ℕ) (rest : List ℕ) (moves : ℕ) (hist : List (ℕ × ℕ))
    (hpick : tw.get src = disk :: rest) :
    (HanoiTower.canPlace disk ((tw.set src rest).get target) = true ↔
      (tw.set src rest).get target = [] ∨
        ∃ top tl, (tw.set src rest).get target = top :: tl ∧ disk < top) ∧
    (HanoiTower.canPlace disk ((tw.set src rest).get target) = false →
      HanoiTower.dropDisk (tw.set src rest) src disk (some target) moves
          hist = (tw, moves, hist)) ∧
    (HanoiTower.canPlace disk ((tw.set src rest).get target) = true →
      HanoiTower.dropDisk (tw.set src rest) src disk (some target) moves
          hist =
        ((tw.set src rest).set target
            (disk :: (tw.set src rest).get target),
          if src ≠ target then moves + 1 else moves,
          if src ≠ target then hist ++ [(src.val + 1, target.val + 1)]
          else hist)) ∧
    HanoiTower.dropDisk (HanoiTower.Towers.mk [] [] []) 0 3 (some 1) 5 [] =
      (HanoiTower.Towers.mk [] [3] [], 6, [(1, 2)]) ∧
    HanoiTower.dropDisk (HanoiTower.Towers.mk [] [2, 4] []) 0 3 (some 1) 5
        [] =
      (HanoiTower.Towers.mk [3] [2, 4] [], 5, []) := by
  refine ⟨?_, ?_, ?_, by decide, by decide⟩
  · rcases h : (tw.set src rest).get target with _ | ⟨top, tl⟩
    · simp [HanoiTower.canPlace]
    · simp only [HanoiTower.canPlace, decide_eq_true_eq]
      constructor
      · intro hlt
        exact Or.inr ⟨top, tl, rfl, hlt⟩
      · rintro (hnil | ⟨top', tl', heq, hlt⟩)
        · exact absurd hnil (by simp)
        · rcases List.cons.injEq .. ▸ heq with ⟨rfl, rfl⟩
          exact hlt
  · intro hcan
    rw [HanoiTower.dropDisk, if_neg (by rw [hcan]; simp),
      HanoiTower.Towers.get_set_self, HanoiTower.Towers.set_set_self,
      ← hpick, HanoiTower.Towers.set_get_self]
  · intro hcan
    rw [HanoiTower.dropDisk, if_pos hcan]

/-- C6 witness: with disks `[2, 3]` on tower 0, picking up the top disk
(size 2) and legally dropping it on the empty tower 1 pushes it there and
counts the move. -/
theorem C6_drop_rule_witness :
    HanoiTower.dropDisk
        ((HanoiTower.Towers.mk [2, 3] [] []).set 0 [3]) 0 2 (some 1) 0 [] =
      (((HanoiTower.Towers.mk [2, 3] [] []).set 0 [3]).set 1
          (2 :: ((HanoiTower.Towers.mk [2, 3] [] []).set 0 [3]).get 1),
        if (0 : Fin 3) ≠ 1 then 0 + 1 else 0,
        if (0 : Fin 3) ≠ 1 then ([] : List (ℕ × ℕ)) ++ [(0 + 1, 1 + 1)]
        else []) :=
  (C6_drop_rule (HanoiTower.Towers.mk [2, 3] [] []) 0 1 2 [3] 0 []
      (by decide)).2.2.1 (by decide)

/-- C7: `check_win` declares a win exactly when tower 1 or tower 2 holds
exactly `n` disks (when the game is not already won), and the check is
idempotent: on an already-won state it changes nothing, and applying it
twice equals applying it once. -/
theorem C7_check_win_idempotent (g : HanoiTower.GameState) :
    (g.game_state ≠ "win" →
      ((HanoiTower.check_win g).game_state = "win" ↔
        (g.towers.t1.length = g.n ∨ g.towers.t2.length = g.n))) ∧
    (g.game_state = "win" → HanoiTower.check_win g = g) ∧
    HanoiTower.check_win (HanoiTower.check_win g) =
      HanoiTower.check_win g := by
  by_cases hwin : g.towers.t1.length = g.n ∨ g.towers.t2.length = g.n
  · by_cases hst : g.game_state = "win"
    · have hid : HanoiTower.check_win g = g := by
        rw [HanoiTower.check_win, if_pos hwin, if_pos hst]
      exact ⟨fun hne => absurd hst hne, fun _ => hid, by rw [hid, hid]⟩
    · have h1 : HanoiTower.check_win g =
          { g with
            game_state := "win"
            scores :=
              if g.is_solver_used then g.scores
              else g.scores ++ [HanoiTower.ScoreEntry.mk g.player_name g.n
                g.time_taken g.moves]
            full_move_history := g.full_move_history ++
              [HanoiTower.HistoryEntry.mk g.game_id g.player_name g.n
                g.move_history g.time_taken] } := by
        rw [HanoiTower.check_win, if_pos hwin, if_neg hst]
      refine ⟨fun _ => ?_, fun hst' => absurd hst' hst, ?_⟩
      · rw [h1]
        simp [hwin]
      · rw [h1, HanoiTower.check_win]
        simp
  · have hid : HanoiTower.check_win g = g := by
      rw [HanoiTower.check_win, if_neg hwin]
    exact ⟨fun hne => by rw [hid]; exact iff_of_false hne hwin,
      fun _ => hid, by rw [hid, hid]⟩

/-- C7 witness: `check_win` marks a finished 1-disk game as won, and on
an already-won state `check_win` is the identity. -/
theorem C7_check_win_idempotent_witness :
    (HanoiTower.check_win
        (HanoiTower.GameState.mk (HanoiTower.Towers.mk [] [0] []) 1 "game"
          [] [] false [] "p" "id" 1 0)).game_state = "win" ∧
      HanoiTower.check_win
          (HanoiTower.GameState.mk (HanoiTower.Towers.mk [] [0] []) 1 "win"
            [] [] false [] "p" "id" 1 0) =
        HanoiTower.GameState.mk (HanoiTower.Towers.mk [] [0] []) 1 "win"
          [] [] false [] "p" "id" 1 0 :=
  ⟨((C7_check_win_idempotent
        (HanoiTower.GameState.mk (HanoiTower.Towers.mk [] [0] []) 1 "game"
          [] [] false [] "p" "id" 1 0)).1 (by decide)).mpr (by decide),
    (C7_check_win_idempotent
        (HanoiTower.GameState.mk (HanoiTower.Towers.mk [] [0] []) 1 "win"
          [] [] false [] "p" "id" 1 0)).2.1 rfl⟩

/-- C10: on a winning, not-yet-won state, `check_win` appends the score
entry (and only then) iff the automatic solver was not used, appends the
move-history entry unconditionally, and `start_animation` sets the
`is_solver_used` flag. -/
theorem C10_solver_excludes_score (g : HanoiTower.GameState)
    (hwin : g.towers.t1.length = g.n ∨ g.towers.t2.length = g.n)
    (hst : g.game_state ≠ "win") :
    ((HanoiTower.check_win g).scores =
      if g.is_solver_used then g.scores
      else g.scores ++ [HanoiTower.ScoreEntry.mk g.player_name g.n
        g.time_taken g.moves]) ∧
    (HanoiTower.check_win g).full_move_history =
      g.full_move_history ++ [HanoiTower.HistoryEntry.mk g.game_id
        g.player_name g.n g.move_history g.time_taken] ∧
    (HanoiTower.start_animation_flags g).is_solver_used = true := by
  rw [HanoiTower.check_win, if_pos hwin, if_neg hst]
  exact ⟨rfl, rfl, rfl⟩

/-- C10 witness: after the solver was used (`is_solver_used = true`), a
win leaves the scoreboard unchanged but still appends the move-history
entry. -/
theorem C10_solver_excludes_score_witness :
    (HanoiTower.check_win
        (HanoiTower.GameState.mk (HanoiTower.Towers.mk [] [] [0]) 1 "game"
          [] [] true [(1, 3)] "p" "id" 1 0)).scores = [] ∧
      (HanoiTower.check_win
          (HanoiTower.GameState.mk (HanoiTower.Towers.mk [] [] [0]) 1
            "game" [] [] true [(1, 3)] "p" "id" 1 0)).full_move_history =
        [HanoiTower.HistoryEntry.mk "id" "p" 1 [(1, 3)] 0] := by
  have h := C10_solver_excludes_score
    (HanoiTower.GameState.mk (HanoiTower.Towers.mk [] [] [0]) 1 "game"
      [] [] true [(1, 3)] "p" "id" 1 0) (by decide) (by decide)
  exact ⟨by simpa using h.1, by simpa using h.2.1⟩

/-- C4 counterexample: for the constant-zero scoring function (a valid
probability-valued scorer), the search returns the empty candidate
`none` with score 0, although the first candidate in iteration order,
`cFirst`, attains the maximum score 0 — so the claim that the first
maximum-attaining candidate always wins ties fails at the
zero-initialized accumulator floor. -/
theorem C4_zero_scorer_counterexample :
    BankMarketing.recommend_for_non_subscriber (fun _ => .ok (0 : ℚ)) =
        .ok (none, 0) ∧
      BankMarketing.bestScore (fun _ => (0 : ℚ)) = 0 ∧
      BankMarketing.cFirst ∈ BankMarketing.candidates ∧
      (none : Option BankMarketing.Candidate) ≠ some BankMarketing.cFirst := by
  refine ⟨?_, ?_, by decide, by simp⟩
  · have h := BankMarketing.foldlM_gridStep_ok (fun _ => (0 : ℚ))
      BankMarketing.candidates (none, 0)
    rw [BankMarketing.foldl_step_no_update (fun _ => (0 : ℚ))
      BankMarketing.candidates (none, 0) (fun c _ => le_refl 0)] at h
    exact h
  · rw [BankMarketing.bestScore]
    apply BankMarketing.foldl_max_of_le
    intro x hx
    rcases List.mem_map.mp hx with ⟨c, _, rfl⟩
    exact le_refl 0

/-- C4 (amended): when at least one candidate scores strictly above the
zero-initialized accumulator, the grid search returns the first
candidate in loop order attaining the maximal score, together with that
maximal score; in particular, for a scoring function that is 1 at
exactly one candidate of the grid and 0 elsewhere, the search returns
exactly that candidate with score 1. -/
theorem C4_grid_search_first_max (f : BankMarketing.Candidate → ℚ)
    (c0 : BankMarketing.Candidate) (h0 : c0 ∈ BankMarketing.candidates)
    (hpos : 0 < f c0) :
    BankMarketing.recommend_for_non_subscriber (fun c => .ok (f c)) =
      .ok (BankMarketing.candidates.find?
          (fun c => decide (BankMarketing.bestScore f ≤ f c)),
        BankMarketing.bestScore f) ∧
    (∀ c ∈ BankMarketing.candidates, f c ≤ BankMarketing.bestScore f) ∧
    (∀ b, BankMarketing.candidates.find?
        (fun c => decide (BankMarketing.bestScore f ≤ f c)) = some b →
      b ∈ BankMarketing.candidates ∧ f b = BankMarketing.bestScore f) ∧
    ∀ c1 ∈ BankMarketing.candidates,
      (∀ c, f c = if c = c1 then 1 else 0) →
      BankMarketing.recommend_for_non_subscriber (fun c => .ok (f c)) =
        .ok (some c1, 1) := by
  have hM : 0 < BankMarketing.bestScore f :=
    lt_of_lt_of_le hpos (BankMarketing.mem_le_foldl_max
      (BankMarketing.candidates.map f) 0 (f c0) (List.mem_map_of_mem f h0))
  obtain ⟨c, h1, h2, h3, h4⟩ := BankMarketing.foldl_step_argmax f
    BankMarketing.candidates none 0 (BankMarketing.bestScore f) rfl hM
  have hrec : BankMarketing.recommend_for_non_subscriber
      (fun c => .ok (f c)) = .ok (some c, BankMarketing.bestScore f) := by
    have h := BankMarketing.foldlM_gridStep_ok f
      BankMarketing.candidates (none, 0)
    rw [h1] at h
    exact h
  refine ⟨?_, ?_, ?_, ?_⟩
  · rw [hrec, h4]
  · exact fun c' hc' => BankMarketing.mem_le_foldl_max _ _ _
      (List.mem_map_of_mem f hc')
  · intro b hb
    rw [h4] at hb
    rcases Option.some.injEq .. ▸ hb with rfl
    exact ⟨h2, h3⟩
  · intro c1 hc1 hf
    have hbest : BankMarketing.bestScore f = 1 := by
      rw [BankMarketing.bestScore]
      apply BankMarketing.foldl_max_attained (BankMarketing.candidates.map f)
        0 1 (by norm_num)
      · refine List.mem_map.mpr ⟨c1, hc1, ?_⟩
        rw [hf c1, if_pos rfl]
      · intro x hx
        rcases List.mem_map.mp hx with ⟨c', _, rfl⟩
        rw [hf c']
        by_cases h : c' = c1
        · rw [if_pos h]
        · rw [if_neg h]
          norm_num
    have hfind : BankMarketing.candidates.find?
        (fun c => decide (BankMarketing.bestScore f ≤ f c)) = some c1 := by
      have hp : (fun c => decide (BankMarketing.bestScore f ≤ f c)) =
          fun c => decide (c = c1) := by
        funext c'
        rw [hf c', hbest]
        by_cases h : c' = c1
        · simp [h]
        · simp [h]
      rw [hp]
      exact BankMarketing.find?_eq_of_mem BankMarketing.candidates c1 hc1
    have hcc : c = c1 := by
      rw [h4] at hfind
      exact Option.some.injEq .. ▸ hfind
    rw [hrec, hcc, hbest]

/-- C4 witness: the one-hot scoring function at the first grid candidate
makes the search return exactly that candidate with score 1. -/
theorem C4_grid_search_first_max_witness :
    BankMarketing.recommend_for_non_subscriber
        (fun c => .ok (if c = BankMarketing.cFirst then (1 : ℚ) else 0)) =
      .ok (some BankMarketing.cFirst, 1) :=
  (C4_grid_search_first_max
      (fun c => if c = BankMarketing.cFirst then (1 : ℚ) else 0)
      BankMarketing.cFirst (by decide) (by decide)).2.2.2
    BankMarketing.cFirst (by decide) (fun c => rfl)

/-- C5 counterexample: a scoring function that raises an exception other
than `AttributeError` for every candidate makes the whole search abort
with that exception — the code catches only `AttributeError`, so it does
not return the empty candidate with score 0 and the failure propagates
to the caller. -/
theorem C5_otherError_propagates_counterexample :
    BankMarketing.recommend_for_non_subscriber
        (fun _ => .error BankMarketing.PyExc.otherError) =
      .error BankMarketing.PyExc.otherError ∧
    (Except.error BankMarketing.PyExc.otherError :
        Except BankMarketing.PyExc (Option BankMarketing.Candidate × ℚ)) ≠
      .ok (none, 0) := by
  constructor
  · exact BankMarketing.foldlM_gridStep_otherError _
      BankMarketing.candidates (none, 0) (by decide) (fun _ _ => rfl)
  · intro h
    exact Except.noConfusion h

/-- C5 (amended): only `AttributeError` is caught per-candidate and
treated as non-winning; when the scoring function raises
`AttributeError` for every candidate, the search returns the empty
candidate with score 0 without propagating any failure (any other
exception class aborts the search instead). -/
theorem C5_attributeError_caught (score : BankMarketing.Candidate →
      Except BankMarketing.PyExc ℚ)
    (h : ∀ c ∈ BankMarketing.candidates,
      score c = .error BankMarketing.PyExc.attributeError) :
    BankMarketing.recommend_for_non_subscriber score = .ok (none, 0) :=
  BankMarketing.foldlM_gridStep_attrError score
    BankMarketing.candidates (none, 0) h

/-- C5 witness: the everywhere-`AttributeError` scorer yields the empty
candidate with score 0. -/
theorem C5_attributeError_caught_witness :
    BankMarketing.recommend_for_non_subscriber
        (fun _ => .error BankMarketing.PyExc.attributeError) =
      .ok (none, 0) :=
  C5_attributeError_caught
    (fun _ => .error BankMarketing.PyExc.attributeError) (fun _ _ => rfl)

/-- C8: a bulk upload missing any required column is rejected wholesale
with exactly the list of missing required columns and no partial result;
otherwise every row is scored and labelled `"Prioritize"` iff its
probability is at least the fixed 0.50 threshold, `"De-prioritize"`
otherwise. -/
theorem C8_bulk_upload {ρ : Type} (score : ρ → ℚ)
    (df : BankMarketing.Table ρ) :
    ((∃ c ∈ BankMarketing.RAW_FEATURE_COLUMNS, c ∉ df.cols) →
      BankMarketing.process_bulk_upload score df =
        .error (BankMarketing.RAW_FEATURE_COLUMNS.filter
          fun c => decide (c ∉ df.cols)) ∧
      ∀ c, c ∈ (BankMarketing.RAW_FEATURE_COLUMNS.filter
          fun c => decide (c ∉ df.cols)) ↔
        (c ∈ BankMarketing.RAW_FEATURE_COLUMNS ∧ c ∉ df.cols)) ∧
    ((∀ c ∈ BankMarketing.RAW_FEATURE_COLUMNS, c ∈ df.cols) →
      BankMarketing.process_bulk_upload score df =
        .ok (df.rows.map fun r => (r, score r,
          if BankMarketing.SUCCESS_THRESHOLD ≤ score r then "Prioritize"
          else "De-prioritize"))) ∧
    ∀ r : ρ, ((if BankMarketing.SUCCESS_THRESHOLD ≤ score r then
        "Prioritize" else "De-prioritize") = "Prioritize" ↔
      BankMarketing.SUCCESS_THRESHOLD ≤ score r) := by
  refine ⟨?_, ?_, ?_⟩
  · rintro ⟨c, hc, hnc⟩
    have hm : c ∈ BankMarketing.RAW_FEATURE_COLUMNS.filter
        (fun c => decide (c ∉ df.cols)) :=
      List.mem_filter.mpr ⟨hc, by simpa using hnc⟩
    have hne : (BankMarketing.RAW_FEATURE_COLUMNS.filter
        fun c => decide (c ∉ df.cols)) ≠ [] := List.ne_nil_of_mem hm
    refine ⟨?_, ?_⟩
    · simp only [BankMarketing.process_bulk_upload]
      rw [if_pos hne]
    · intro c'
      rw [List.mem_filter]
      simp
  · intro hall
    have hm : (BankMarketing.RAW_FEATURE_COLUMNS.filter
        fun c => decide (c ∉ df.cols)) = [] := by
      rw [List.filter_eq_nil_iff]
      intro c hc
      simpa using hall c hc
    simp only [BankMarketing.process_bulk_upload]
    rw [hm, if_neg (by simp)]
  · intro r
    by_cases h : BankMarketing.SUCCESS_THRESHOLD ≤ score r
    · rw [if_pos h]
      exact iff_of_true rfl h
    · rw [if_neg h]
      exact iff_of_false (by decide) h

/-- C8 witness: a table with only the `age` column is rejected with
exactly the fifteen other required columns reported missing. -/
theorem C8_bulk_upload_witness :
    BankMarketing.process_bulk_upload (fun _ : ℕ => (0 : ℚ))
        (BankMarketing.Table.mk ["age"] []) =
      .error ["job", "marital", "education", "default", "balance",
        "housing", "loan", "contact", "day", "month", "duration",
        "campaign", "pdays", "previous", "poutcome"] := by
  have h := ((C8_bulk_upload (fun _ : ℕ => (0 : ℚ))
      (BankMarketing.Table.mk ["age"] [])).1
    ⟨"job", by decide, by decide⟩).1
  rw [h]
  exact congrArg Except.error (by decide)

/-- C1: For every disk count N ≥ 0 and tower indices (source, destination,
auxiliary) — in particular distinct ones — the list returned by
`hanoi_solver(N, source, destination, auxiliary)` has length exactly
`2 ^ N - 1`. -/
theorem C1_hanoi_solver_length (n : ℕ) {α : Type} (s d a : α) :
    (HanoiTower.hanoi_solver (n : ℤ) s d a).length = 2 ^ n - 1 :=
  HanoiTower.hanoi_solver_length n s d a

/-- C3: `hanoi_solver` equals the textbook recursive definition, and
`hanoi_solver(3, 0, 2, 1)` returns exactly the seven moves
(0,2),(0,1),(2,1),(0,2),(1,0),(1,2),(0,2). -/
theorem C3_hanoi_solver_textbook :
    (∀ (α : Type) (n : ℕ) (s d a : α),
        HanoiTower.hanoi_solver (n : ℤ) s d a =
          HanoiTower.textbook_solve n s d a) ∧
      HanoiTower.hanoi_solver (3 : ℤ) (0 : ℕ) 2 1 =
        [(0, 2), (0, 1), (2, 1), (0, 2), (1, 0), (1, 2), (0, 2)] := by
  refine ⟨fun α n s d a => HanoiTower.hanoi_solver_eq_textbook n s d a, ?_⟩
  have h : ((3 : ℕ) : ℤ) = (3 : ℤ) := by norm_num
  rw [← h, HanoiTower.hanoi_solver_eq_textbook]
  decide

/-- C9: for every integer n ≤ 0 (including negative n) and any tower
indices, `hanoi_solver(n, source, destination, auxiliary)` terminates and
returns the empty list: the recursion is guarded by `n > 0`. -/
theorem C9_hanoi_solver_nonpos {α : Type} (n : ℤ) (hn : n ≤ 0)
    (s d a : α) : HanoiTower.hanoi_solver n s d a = [] :=
  HanoiTower.hanoi_solver_nonpos hn s d a

/-- C9 witness: `hanoi_solver(-5, 0, 1, 2)` is the empty list. -/
theorem C9_hanoi_solver_nonpos_witness :
    HanoiTower.hanoi_solver (-5 : ℤ) (0 : ℕ) 1 2 = [] :=
  C9_hanoi_solver_nonpos (-5) (by norm_num) 0 1 2
